import Mathlib

/-!
Shallow embedding of the sexagesimal formatting engine of package `sexa`
(file sexa.go) and proofs relating it to its natural-language
specification.

Modelling conventions:
* Go strings are modelled as lists of characters (runes).  Every byte
  index the Go code computes (`strings.Index`, `len`, slicing) falls on a
  rune boundary for valid UTF-8 input, so the rune-level model is exact.
* float64 magnitudes are modelled as exact rationals.  The code's own
  guard `xs <= 1<<52` in `sig` is precisely the condition under which the
  float64 computation it performs is exact, and the spec states the
  arithmetic over exact reals.
* int64 values in these code paths stay below 2^52 + 1, so Nat and Int
  model them exactly.
* Fallible rendering returns `Except Err (List Char)`.
-/

namespace Sexa

/- The core rational operations are irreducible by default, which blocks
kernel evaluation of the model on concrete inputs; restore the default
reducibility locally so that concrete witnesses evaluate. -/
attribute [local semireducible] Rat.sub Rat.add Rat.mul Rat.inv

/-- Model of `strings.HasPrefix` on rune lists: does `pat` begin `s`? -/
def hasPfx : List Char → List Char → Bool
  | [], _ => true
  | _ :: _, [] => false
  | a :: pa, b :: sb => a == b && hasPfx pa sb

/-- Model of `strings.Index` on rune lists: index of the first occurrence
of `pat` in `s`, or `none` when `pat` does not occur. -/
def strIndex (s pat : List Char) : Option Nat :=
  match s with
  | [] => if hasPfx pat [] then some 0 else none
  | _ :: t => if hasPfx pat s then some 0 else (strIndex t pat).map (· + 1)

/-- sexa.go `UnitSymbols`: symbols for the three segments. -/
structure UnitSymbols where
  HrDeg : List Char
  Min : List Char
  Sec : List Char
  deriving DecidableEq

/-- sexa.go `Symbols`: unit and decimal indicators. -/
structure Symbols where
  DMSUnits : UnitSymbols
  HMSUnits : UnitSymbols
  DecSep : List Char
  DecCombine : Char
  deriving DecidableEq

/-- sexa.go `Default`: the package default symbols. -/
def Default : Symbols :=
  ⟨⟨['°'], ['′'], ['″']⟩, ⟨['ʰ'], ['ᵐ'], ['ˢ']⟩, ['.'], '̣'⟩

/-- sexa.go `Symbols.CombineUnit`. -/
def CombineUnit (sym : Symbols) (d unit : List Char) : List Char :=
  if sym.DecSep = [] ∨ sym.DecCombine = Char.ofNat 0 then d ++ unit
  else
    match strIndex d sym.DecSep with
    | none => d ++ unit
    | some i => d.take i ++ unit ++ [sym.DecCombine] ++ d.drop (i + sym.DecSep.length)

/-- sexa.go `Symbols.InsertUnit`. -/
def InsertUnit (sym : Symbols) (d unit : List Char) : List Char :=
  if sym.DecSep = [] then d ++ unit
  else
    match strIndex d sym.DecSep with
    | none => d ++ unit
    | some i => d.take i ++ unit ++ d.drop i

/-- sexa.go `Symbols.StripUnit`. -/
def StripUnit (sym : Symbols) (d unit : List Char) : List Char × Bool :=
  match strIndex d unit with
  | none => (d, false)
  | some xu =>
    let xd := xu + unit.length
    if xd = d.length then (d.take xu, true)
    else if sym.DecSep ≠ [] ∧ hasPfx sym.DecSep (d.drop xd) = true then
      (d.take xu ++ d.drop xd, true)
    else
      match d.drop xd with
      | [] => (d, false)
      | c :: rest =>
        if c = sym.DecCombine then (d.take xu ++ sym.DecSep ++ rest, true)
        else (d, false)

/-- Decimal digits of `n`, most significant first (fuel recursion). -/
def natDigitsAux : Nat → Nat → List Char
  | 0, _ => []
  | fuel + 1, n =>
    if n = 0 then [] else natDigitsAux fuel (n / 10) ++ [Char.ofNat (48 + n % 10)]

/-- Decimal representation of a natural number as Go fmt `%d` renders it. -/
def natDigits (n : Nat) : List Char :=
  if n = 0 then ['0'] else natDigitsAux (n + 1) n

/-- Model of Go `fmt.Sprintf` of an integer with the plus, space and zero
flags and a minimum width, covering the directives the source uses:
`%d`, `%*d`, `%0*d`, `%+0*d`, `% 0*d`, `%2d`, `%02d`. -/
def goFmtInt (plus space zero : Bool) (width : Nat) (i : Int) : List Char :=
  let digits := natDigits i.natAbs
  let sign : List Char :=
    if i < 0 then ['-'] else if plus then ['+'] else if space then [' '] else []
  if zero then sign ++ List.replicate (width - (sign.length + digits.length)) '0' ++ digits
  else
    let u := sign ++ digits
    List.replicate (width - u.length) ' ' ++ u

/-- Truncation of a rational toward zero: the effect of Go's `int64`
conversion on a finite float64. -/
def ratTrunc (q : ℚ) : Int := q.num.tdiv q.den

/-- sexa.go `sig`: the significant digits of `x` at precision `prec`,
or -1 when the scaled value exceeds 2^52. -/
def sig (x : ℚ) (prec : Nat) : Int :=
  let xs := x * 10 ^ prec + 1 / 2
  if ¬ xs ≤ 2 ^ 52 then -1 else ratTrunc xs

/-- Model of math.Abs on the rational magnitude. -/
def goAbs (q : ℚ) : ℚ := if q < 0 then -q else q

/-- The value errors of sexa.go (`ErrLossOfPrecision`, …, `ErrNaN`). -/
inductive Err where
  | lossOfPrecision
  | degreeOverflow
  | hourOverflow
  | posInf
  | negInf
  | nan
  deriving DecidableEq

/-- sexa.go caller constants `fsAngle`, `fsHourAngle`, `fsRA`, `fsTime`. -/
inductive Caller where
  | fsAngle
  | fsHourAngle
  | fsRA
  | fsTime
  deriving DecidableEq

/-- A classified float64 input value. -/
inductive FVal where
  | nan
  | posInf
  | negInf
  | finite (q : ℚ)
  deriving DecidableEq

/-- sexa.go `state`, after symbol resolution and precision validation.
Width, precision and flags model the `fmt.State` directive. -/
structure St where
  verb : Char
  hrDeg : ℚ
  prec : Nat
  caller : Caller
  sym : Symbols
  units : UnitSymbols
  width : Option Nat
  flagPlus : Bool
  flagSpace : Bool
  flagZero : Bool
  flagHash : Bool
  deriving DecidableEq

/-- The sign switch at the end of `state.firstSeg`. -/
def signPre (st : St) (r : List Char) : List Char :=
  if st.hrDeg < 0 then '-' :: r
  else if st.flagPlus = true then '+' :: r
  else if st.flagSpace = true ∨ st.width.isSome = true then ' ' :: r
  else r

/-- sexa.go `state.firstSeg`: render the first segment, reporting the
overflow error of the caller's convention, or eliding a zero segment. -/
def firstSeg (st : St) (x : Nat) : Except Err (List Char × Bool) :=
  match st.width with
  | some wid =>
    let r := goFmtInt false false st.flagZero wid (x : Int)
    if wid < r.length then
      Except.error (if st.caller = Caller.fsAngle then Err.degreeOverflow else Err.hourOverflow)
    else Except.ok (signPre st (r ++ st.units.HrDeg), false)
  | none =>
    if 0 < x ∨ st.flagHash = true then
      Except.ok (signPre st (natDigits x ++ st.units.HrDeg), false)
    else Except.ok (signPre st [], true)

/-- sexa.go `state.lastSeg`: render the final (decimal) segment. -/
def lastSeg (st : St) (sec : Nat) (unit : List Char) (first : Bool) : List Char :=
  let wid := st.prec + 1 +
    (if st.flagZero = true ∧ (st.width.isSome = true ∨ first = false) then 1 else 0)
  let r := goFmtInt false false true wid (sec : Int)
  let r := if st.width.isSome = true ∧ r.length < st.prec + 2 then ' ' :: r else r
  let r :=
    if 0 < st.prec then r.take (r.length - st.prec) ++ st.sym.DecSep ++ r.drop (r.length - st.prec)
    else r
  if st.verb = 'c' ∨ st.verb = 'n' then CombineUnit st.sym r unit
  else if st.verb = 'd' ∨ st.verb = 'o' then InsertUnit st.sym r unit
  else r ++ unit

/-- The common tail of `state.decimalHrDeg`: insert the decimal
separator and place the unit per the verb. -/
def hrDegTail (st : St) (r : List Char) : List Char :=
  let r :=
    if 0 < st.prec then r.take (r.length - st.prec) ++ st.sym.DecSep ++ r.drop (r.length - st.prec)
    else r
  if st.verb = 'i' then CombineUnit st.sym r st.units.HrDeg
  else if st.verb = 'j' then InsertUnit st.sym r st.units.HrDeg
  else if st.verb = 'h' then r ++ st.units.HrDeg
  else r

/-- sexa.go `state.decimalHrDeg`: single-segment rendering. -/
def decimalHrDeg (st : St) : Except Err (List Char) :=
  let i0 := sig (goAbs st.hrDeg) st.prec
  if i0 < 0 then Except.error Err.lossOfPrecision
  else
    let i : Int := if st.hrDeg < 0 then -i0 else i0
    match st.width with
    | none => Except.ok (hrDegTail st (goFmtInt st.flagPlus st.flagSpace true (st.prec + 1) i))
    | some wid =>
      let wf := st.prec + wid + 1
      let r := goFmtInt st.flagPlus (!st.flagPlus) st.flagZero wf i
      if wf < r.length then
        Except.error (if st.caller = Caller.fsAngle then Err.degreeOverflow else Err.hourOverflow)
      else Except.ok (hrDegTail st r)

/-- sexa.go `state.decimalMin`: two-segment rendering. -/
def decimalMin (st : St) : Except Err (List Char) :=
  let i0 := sig (goAbs st.hrDeg * 60) st.prec
  if i0 < 0 then Except.error Err.lossOfPrecision
  else
    let n := i0.toNat
    let p60 := 60 * 10 ^ st.prec
    let min := n / p60
    let sec := n % p60
    match firstSeg st min with
    | Except.error e => Except.error e
    | Except.ok (r, minEl) => Except.ok (r ++ lastSeg st sec st.units.Min minEl)

/-- The middle-plus-last tail of `state.decimalSec`: render the minute
segment (zero padded, space padded, elided, or plain) and append the
seconds segment. -/
def secTail (st : St) (r : List Char) (firstEl : Bool) (min sec : Nat) : List Char :=
  if st.flagZero = true ∧ firstEl = false then
    r ++ goFmtInt false false true 2 (min : Int) ++ st.units.Min ++
      lastSeg st sec st.units.Sec false
  else if st.width.isSome = true then
    r ++ goFmtInt false false false 2 (min : Int) ++ st.units.Min ++
      lastSeg st sec st.units.Sec false
  else if firstEl = true ∧ min = 0 then
    r ++ lastSeg st sec st.units.Sec true
  else
    r ++ natDigits min ++ st.units.Min ++ lastSeg st sec st.units.Sec false

/-- sexa.go `state.decimalSec`: three-segment rendering. -/
def decimalSec (st : St) : Except Err (List Char) :=
  let i0 := sig (goAbs st.hrDeg * 3600) st.prec
  if i0 < 0 then Except.error Err.lossOfPrecision
  else
    let n := i0.toNat
    let p60 := 60 * 10 ^ st.prec
    let sec := n % p60
    let n2 := n / p60
    let min := n2 % 60
    let hrDeg := n2 / 60
    match firstSeg st hrDeg with
    | Except.error e => Except.error e
    | Except.ok (r, firstEl) => Except.ok (secTail st r firstEl min sec)

/-- The verbs the `state.writeFormatted` switch recognizes. -/
def verbValid (c : Char) : Bool :=
  c == 'v' || c == 's' || c == 'c' || c == 'd' || c == 'm' || c == 'n' ||
  c == 'o' || c == 'h' || c == 'i' || c == 'j'

/-- Dispatch of a validated verb to its formatting method
(`'v'` falls through to `decimalSec`, as in the source switch). -/
def formatBody (st : St) : Except Err (List Char) :=
  if st.verb = 'm' ∨ st.verb = 'n' ∨ st.verb = 'o' then decimalMin st
  else if st.verb = 'h' ∨ st.verb = 'i' ∨ st.verb = 'j' then decimalHrDeg st
  else decimalSec st

/-- The `%!c(BADVERB)` diagnostic emitted for an unrecognized verb. -/
def badVerbMsg (c : Char) : List Char :=
  '%' :: '!' :: c :: "(BADVERB)".toList

/-- The `%!(BADPREC n)` diagnostic emitted for precision above 15. -/
def badPrecMsg (p : Nat) : List Char :=
  "%!(BADPREC ".toList ++ natDigits p ++ [')']

/-- Build the `state` record as `writeFormatted` does: resolve symbols
(nil means the package default), select the unit set by caller, default
the precision to 0.  The working value starts at 0; the finite input is
substituted before rendering. -/
def mkState (verb : Char) (caller : Caller) (symOpt : Option Symbols)
    (width precOpt : Option Nat) (plus space zero hash : Bool) : St :=
  let sym := symOpt.getD Default
  ⟨verb, 0, precOpt.getD 0, caller, sym,
    (if caller = Caller.fsAngle then sym.DMSUnits else sym.HMSUnits),
    width, plus, space, zero, hash⟩

/-- The `valErr` tail of `state.writeFormatted`: re-render with the value
replaced by zero to size an all-asterisk sentinel; a combining mark in
the mock counts as zero display width; if even the mock fails, use the
fixed default width 10. -/
def valErr (st : St) (e : Err) : List Char × Option Err :=
  match formatBody st with
  | Except.ok mock =>
    (List.replicate (mock.length - (if mock.contains st.sym.DecCombine then 1 else 0)) '*',
      some e)
  | Except.error _ => (List.replicate 10 '*', some e)

/-- sexa.go `state.writeFormatted`: validate the verb and precision,
classify the value, render, and recover from value errors.  Returns the
written output together with the persisted error. -/
def writeFormatted (verb : Char) (v : FVal) (caller : Caller) (symOpt : Option Symbols)
    (width precOpt : Option Nat) (plus space zero hash : Bool) : List Char × Option Err :=
  if verbValid verb = false then (badVerbMsg verb, none)
  else
    let st := mkState verb caller symOpt width precOpt plus space zero hash
    if 15 < st.prec then (badPrecMsg st.prec, none)
    else
      match v with
      | FVal.nan => valErr st Err.nan
      | FVal.posInf => valErr st Err.posInf
      | FVal.negInf => valErr st Err.negInf
      | FVal.finite q =>
        match formatBody { st with hrDeg := q } with
        | Except.ok r => (r, none)
        | Except.error e => valErr st e

/-- The unit factor each convention applies before `sig`: 3600 for the
seconds verbs, 60 for the minutes verbs, 1 for the hour/degree verbs. -/
def verbFactor (c : Char) : ℚ :=
  if c = 'm' ∨ c = 'n' ∨ c = 'o' then 60
  else if c = 'h' ∨ c = 'i' ∨ c = 'j' then 1
  else 3600

/-- Go `math.Mod` on the rational model:
`math.Mod(x, y) = x - Trunc(x/y)*y`, computed exactly. -/
def goMod (x y : ℚ) : ℚ := x - y * (ratTrunc (x / y) : ℚ)

/-- The package's `pmod` (positive float mod): wrap `math.Mod` into
`[0, y)` for positive `y`. -/
def pmod (x y : ℚ) : ℚ :=
  let r := goMod x y
  if r < 0 then r + y else r

/-- The magnitude `RA.Format` hands to the formatting engine:
`unit.PMod(ra.Hour(), 24)` ("pmod in case ra.RA was directly set to
something out of range"). -/
def raFormatHrDeg (hour : ℚ) : ℚ := pmod hour 24

deriving instance DecidableEq for Except

/-- Symbols with an unset (zero) combining rune but a live separator. -/
def zeroCombineSym : Symbols :=
  ⟨⟨['°'], ['′'], ['″']⟩, ⟨['ʰ'], ['ᵐ'], ['ˢ']⟩, ['.'], Char.ofNat 0⟩

/-- Witness state for C7: no width, space flag set, zero value. -/
def stC7 : St :=
  ⟨'s', 5, 0, Caller.fsAngle, Default, Default.DMSUnits, none, false, true, false, false⟩

/-- Witness state for the multi-segment part of C4: Angle caller,
width 2, first segment 135. -/
def stC4a : St :=
  ⟨'s', 135, 0, Caller.fsAngle, Default, Default.DMSUnits, some 2, false, false, false, false⟩

/-- Witness state for the hr/deg part of C4: Time caller, width 1,
value 135 hours. -/
def stC4b : St :=
  ⟨'h', 135, 0, Caller.fsTime, Default, Default.HMSUnits, some 1, false, false, false, false⟩

/-- Witness state for C6: an angle of 0°1′2″, seconds verb, precision 0. -/
def stC6 : St :=
  ⟨'s', 62/3600, 0, Caller.fsAngle, Default, Default.DMSUnits, none, false, false, false, false⟩

/-! ### Helper lemmas on the string model -/

lemma hasPfx_append (u v : List Char) : hasPfx u (u ++ v) = true := by
  induction u with
  | nil => rfl
  | cons a t ih => simp [hasPfx, ih]

lemma eq_append_of_hasPfx : ∀ {pat s : List Char}, hasPfx pat s = true →
    s = pat ++ s.drop pat.length := by
  intro pat
  induction pat with
  | nil => intro s _; simp
  | cons a t ih =>
    intro s h
    cases s with
    | nil => simp [hasPfx] at h
    | cons b u =>
      simp only [hasPfx, Bool.and_eq_true, beq_iff_eq] at h
      obtain ⟨rfl, h2⟩ := h
      simpa using ih h2

lemma hasPfx_ne_nil {pat s : List Char} (hne : pat ≠ []) (h : hasPfx pat s = true) :
    s ≠ [] := by
  cases pat with
  | nil => exact absurd rfl hne
  | cons a t => cases s with
    | nil => simp [hasPfx] at h
    | cons b u => simp

lemma strIndex_hasPfx : ∀ {s pat : List Char} {i : Nat}, strIndex s pat = some i →
    hasPfx pat (s.drop i) = true := by
  intro s
  induction s with
  | nil =>
    intro pat i h
    unfold strIndex at h
    split at h
    · cases h; simpa using by assumption
    · cases h
  | cons c t ih =>
    intro pat i h
    unfold strIndex at h
    split at h
    · cases h; simpa using by assumption
    · rcases Option.map_eq_some'.mp h with ⟨j, hj, rfl⟩
      simpa using ih hj

lemma strIndex_min : ∀ {s pat : List Char} {i : Nat}, strIndex s pat = some i →
    ∀ j, j < i → hasPfx pat (s.drop j) = false := by
  intro s
  induction s with
  | nil =>
    intro pat i h j hj
    unfold strIndex at h
    split at h
    · cases h; omega
    · cases h
  | cons c t ih =>
    intro pat i h j hj
    unfold strIndex at h
    split at h
    · cases h; omega
    · rcases Option.map_eq_some'.mp h with ⟨k, hk, rfl⟩
      cases j with
      | zero =>
        simpa using Bool.not_eq_true _ ▸ (by assumption : ¬ hasPfx pat (c :: t) = true)
      | succ m =>
        simpa using ih hk m (by omega)

lemma strIndex_intro : ∀ {s pat : List Char} {i : Nat},
    hasPfx pat (s.drop i) = true → (∀ j, j < i → hasPfx pat (s.drop j) = false) →
    strIndex s pat = some i := by
  intro s
  induction s with
  | nil =>
    intro pat i hp hmin
    cases i with
    | zero => unfold strIndex; simp_all
    | succ k =>
      have h0 := hmin 0 (by omega)
      simp only [List.drop_nil] at hp h0
      rw [hp] at h0
      cases h0
  | cons c t ih =>
    intro pat i hp hmin
    cases i with
    | zero =>
      unfold strIndex
      simpa using hp
    | succ k =>
      have h0 := hmin 0 (by omega)
      unfold strIndex
      rw [List.drop_zero] at h0
      rw [h0]
      simp only [Bool.false_eq_true, if_false]
      have := @ih pat k (by simpa using hp)
        (fun j hj => by simpa using hmin (j + 1) (by omega))
      rw [this]
      rfl

lemma length_take_of_le {d : List Char} {i : Nat} (h : i ≤ d.length) :
    (d.take i).length = i := by
  simp [List.length_take]
  omega

lemma lt_length_of_drop_ne_nil {d : List Char} {i : Nat} (h : d.drop i ≠ []) :
    i < d.length := by
  by_contra hle
  exact h (List.drop_eq_nil_of_le (by omega))

/-! ### Claim theorems -/

/-- C10: when `Symbols.DecCombine` is the zero rune, `CombineUnit`
appends the unit at the end for all inputs; no separator replacement is
performed even when `DecSep` is non-empty and occurs in `d`. -/
theorem claim10_combine_zero_rune (sym : Symbols) (d u : List Char)
    (h : sym.DecCombine = Char.ofNat 0) : CombineUnit sym d u = d ++ u := by
  unfold CombineUnit
  rw [if_pos (Or.inr h)]

/-- Witness for C10 at a concrete input whose `d` contains the
non-empty separator. -/
theorem claim10_witness :
    zeroCombineSym.DecCombine = Char.ofNat 0 ∧ zeroCombineSym.DecSep ≠ [] ∧
    (strIndex ['1', '.', '5'] zeroCombineSym.DecSep).isSome = true ∧
    CombineUnit zeroCombineSym ['1', '.', '5'] ['x'] = ['1', '.', '5'] ++ ['x'] :=
  ⟨rfl, by decide, by decide,
    claim10_combine_zero_rune zeroCombineSym ['1', '.', '5'] ['x'] rfl⟩

/-- C2 as stated is false: with the default symbols, `d = "1x2.3"`
contains the separator and `u = "x"` contains neither separator nor
combining mark, yet `StripUnit (InsertUnit d u) u` does not return
`(d, true)` — the strip finds the earlier `x` of `d` first. -/
theorem claim2_counterexample :
    (strIndex ['1', 'x', '2', '.', '3'] Default.DecSep).isSome = true ∧
    strIndex ['x'] Default.DecSep = none ∧
    (['x'].contains Default.DecCombine) = false ∧
    StripUnit Default (InsertUnit Default ['1', 'x', '2', '.', '3'] ['x']) ['x'] ≠
      (['1', 'x', '2', '.', '3'], true) := by
  decide

lemma drop_append_eq {a b : List Char} {i : Nat} (h : a.length = i) :
    (a ++ b).drop i = b := by
  subst h; exact List.drop_left a b

lemma take_append_eq {a b : List Char} {i : Nat} (h : a.length = i) :
    (a ++ b).take i = a := by
  subst h; exact List.take_left a b

/-- C2 amended: strip is an exact inverse of insert and of combine for
any `d` containing the (non-empty) separator and any `u` free of the
separator and combining mark, provided additionally that no occurrence
of `u` begins in the modified string before the separator position, that
the separator does not begin with the combining mark, and (for combine)
that the combining mark is set. -/
theorem claim2_strip_inverse (sym : Symbols) (d u : List Char) (i : Nat)
    (hsep : sym.DecSep ≠ [])
    (hidx : strIndex d sym.DecSep = some i)
    (hmark : sym.DecCombine ≠ Char.ofNat 0)
    (hhead : sym.DecSep.head? ≠ some sym.DecCombine)
    (husep : strIndex u sym.DecSep = none)
    (hucomb : u.contains sym.DecCombine = false)
    (hins : ∀ j, j < i → hasPfx u ((InsertUnit sym d u).drop j) = false)
    (hcomb : ∀ j, j < i → hasPfx u ((CombineUnit sym d u).drop j) = false) :
    StripUnit sym (InsertUnit sym d u) u = (d, true) ∧
    StripUnit sym (CombineUnit sym d u) u = (d, true) := by
  have hpfx : hasPfx sym.DecSep (d.drop i) = true := strIndex_hasPfx hidx
  have hlt : i < d.length := lt_length_of_drop_ne_nil (hasPfx_ne_nil hsep hpfx)
  have htake : (d.take i).length = i := length_take_of_le (le_of_lt hlt)
  have hdsplit : d.drop i = sym.DecSep ++ d.drop (i + sym.DecSep.length) := by
    have h1 := eq_append_of_hasPfx hpfx
    rwa [List.drop_drop] at h1
  constructor
  · -- strip after insert
    have hins_def : InsertUnit sym d u = d.take i ++ (u ++ d.drop i) := by
      unfold InsertUnit
      rw [if_neg hsep, hidx]
      simp [List.append_assoc]
    have hdrop_ins : (InsertUnit sym d u).drop i = u ++ d.drop i := by
      rw [hins_def]; exact drop_append_eq htake
    have hsidx : strIndex (InsertUnit sym d u) u = some i :=
      strIndex_intro (by rw [hdrop_ins]; exact hasPfx_append u _) hins
    have hdrop2 : (InsertUnit sym d u).drop (i + u.length) = d.drop i := by
      rw [← List.drop_drop, hdrop_ins]
      exact drop_append_eq rfl
    have hlen : (InsertUnit sym d u).length = d.length + u.length := by
      rw [hins_def]
      simp [List.length_append, htake]
      omega
    simp only [StripUnit, hsidx]
    rw [if_neg (by rw [hlen]; omega), if_pos ⟨hsep, by rw [hdrop2]; exact hpfx⟩]
    rw [hdrop2, hins_def, take_append_eq htake]
    rw [List.take_append_drop]
  · -- strip after combine
    have hcomb_def : CombineUnit sym d u =
        d.take i ++ (u ++ (sym.DecCombine :: d.drop (i + sym.DecSep.length))) := by
      unfold CombineUnit
      rw [if_neg (not_or.mpr ⟨hsep, hmark⟩), hidx]
      simp [List.append_assoc]
    have hdrop_comb : (CombineUnit sym d u).drop i =
        u ++ (sym.DecCombine :: d.drop (i + sym.DecSep.length)) := by
      rw [hcomb_def]; exact drop_append_eq htake
    have hsidx : strIndex (CombineUnit sym d u) u = some i :=
      strIndex_intro (by rw [hdrop_comb]; exact hasPfx_append u _) hcomb
    have hdrop2 : (CombineUnit sym d u).drop (i + u.length) =
        sym.DecCombine :: d.drop (i + sym.DecSep.length) := by
      rw [← List.drop_drop, hdrop_comb]
      exact drop_append_eq rfl
    have hlen : i + u.length ≠ (CombineUnit sym d u).length := by
      rw [hcomb_def]
      simp [List.length_append, htake]
    have hnopfx : hasPfx sym.DecSep
        (sym.DecCombine :: d.drop (i + sym.DecSep.length)) = false := by
      cases hds : sym.DecSep with
      | nil => exact absurd hds hsep
      | cons c l =>
        have hcne : c ≠ sym.DecCombine := by
          rw [hds] at hhead
          simpa using hhead
        simp [hasPfx, hcne]
    simp only [StripUnit, hsidx]
    rw [if_neg hlen, if_neg (by rw [hdrop2]; simp [hnopfx]), hdrop2]
    simp only [if_true]
    rw [hcomb_def, take_append_eq htake]
    rw [List.append_assoc, ← hdsplit, List.take_append_drop]

/-- Witness for the amended C2 at `sym = Default`, `d = "1.5"`,
`u = "x"`, separator position 1. -/
theorem claim2_witness :
    Default.DecSep ≠ [] ∧ strIndex ['1', '.', '5'] Default.DecSep = some 1 ∧
    StripUnit Default (InsertUnit Default ['1', '.', '5'] ['x']) ['x'] =
      (['1', '.', '5'], true) ∧
    StripUnit Default (CombineUnit Default ['1', '.', '5'] ['x']) ['x'] =
      (['1', '.', '5'], true) := by
  have h := claim2_strip_inverse Default ['1', '.', '5'] ['x'] 1 (by decide) (by decide)
    (by decide) (by decide) (by decide) (by decide) (by decide) (by decide)
  exact ⟨by decide, by decide, h.1, h.2⟩

/-! ### Rational truncation and pmod lemmas (for C9) -/

lemma neg_tmod_eq (a b : ℤ) : (-a).tmod b = -(a.tmod b) := by
  have h1 := Int.tdiv_add_tmod a b
  have h2 := Int.tdiv_add_tmod (-a) b
  rw [Int.neg_tdiv] at h2
  linarith

lemma ratTrunc_fract (q : ℚ) :
    q - (ratTrunc q : ℚ) = ((q.num.tmod q.den : ℤ) : ℚ) / (q.den : ℚ) := by
  have hden : ((q.den : ℚ)) ≠ 0 := by positivity
  have hid : ((q.den : ℤ) : ℚ) * ((q.num.tdiv q.den : ℤ) : ℚ) + ((q.num.tmod q.den : ℤ) : ℚ)
      = ((q.num : ℤ) : ℚ) := by
    exact_mod_cast congrArg (fun z : ℤ => (z : ℚ)) (Int.tdiv_add_tmod q.num q.den)
  have hq : q * (q.den : ℚ) = (q.num : ℚ) := Rat.mul_den_eq_num q
  rw [ratTrunc]
  field_simp
  push_cast at hid ⊢
  linarith

lemma ratTrunc_fract_bounds (q : ℚ) :
    (0 ≤ q → 0 ≤ q - (ratTrunc q : ℚ) ∧ q - (ratTrunc q : ℚ) < 1) ∧
    (q < 0 → -1 < q - (ratTrunc q : ℚ) ∧ q - (ratTrunc q : ℚ) ≤ 0) := by
  have hfr := ratTrunc_fract q
  have hdpos : (0 : ℚ) < (q.den : ℚ) := by exact_mod_cast q.den_pos
  have hdposZ : (0 : ℤ) < (q.den : ℤ) := by exact_mod_cast q.den_pos
  constructor
  · intro h
    have hnum : 0 ≤ q.num := Rat.num_nonneg.mpr h
    have h1 : 0 ≤ q.num.tmod q.den := Int.tmod_nonneg _ hnum
    have h2 : q.num.tmod q.den < q.den := Int.tmod_lt_of_pos _ hdposZ
    rw [hfr]
    refine ⟨div_nonneg (by exact_mod_cast h1) (le_of_lt hdpos), ?_⟩
    rw [div_lt_one hdpos]
    exact_mod_cast h2
  · intro h
    have hnum : q.num < 0 := by
      by_contra hge
      exact absurd (Rat.num_nonneg.mp (by omega)) (not_le.mpr h)
    have hneg2 : q.num.tmod q.den = -((-q.num).tmod q.den) := by
      rw [neg_tmod_eq, neg_neg]
    have h1 : 0 ≤ (-q.num).tmod q.den := Int.tmod_nonneg _ (by omega)
    have h2 : (-q.num).tmod q.den < q.den := Int.tmod_lt_of_pos _ hdposZ
    have hmnn : (0 : ℚ) ≤ (((-q.num).tmod q.den : ℤ) : ℚ) := by exact_mod_cast h1
    have hmlt : (((-q.num).tmod q.den : ℤ) : ℚ) < (q.den : ℚ) := by exact_mod_cast h2
    have hdiv1 : (((-q.num).tmod q.den : ℤ) : ℚ) / (q.den : ℚ) < 1 := by
      rw [div_lt_one hdpos]; exact hmlt
    have hdiv0 : 0 ≤ (((-q.num).tmod q.den : ℤ) : ℚ) / (q.den : ℚ) :=
      div_nonneg hmnn (le_of_lt hdpos)
    rw [hfr, hneg2]
    push_cast
    rw [neg_div]
    constructor
    · linarith
    · linarith

lemma pmod24_bounds (x : ℚ) : 0 ≤ pmod x 24 ∧ pmod x 24 < 24 := by
  have hx : x = 24 * (x / 24) := by ring
  have hb := ratTrunc_fract_bounds (x / 24)
  have hgm : goMod x 24 = 24 * (x / 24 - (ratTrunc (x / 24) : ℚ)) := by
    unfold goMod
    ring
  unfold pmod
  rw [hgm]
  rcases le_or_lt 0 (x / 24) with hq0 | hq0
  · obtain ⟨h1, h2⟩ := hb.1 hq0
    rw [if_neg (by linarith)]
    constructor <;> linarith
  · obtain ⟨h1, h2⟩ := hb.2 hq0
    by_cases hr : 24 * (x / 24 - (ratTrunc (x / 24) : ℚ)) < 0
    · rw [if_pos hr]
      constructor <;> linarith
    · rw [if_neg hr]
      constructor <;> linarith

lemma pmod24_id {x : ℚ} (h0 : 0 ≤ x) (h24 : x < 24) : pmod x 24 = x := by
  have hdpos : (0 : ℚ) < ((x / 24).den : ℚ) := by exact_mod_cast (x / 24).den_pos
  have hq1 : x / 24 < 1 := by linarith [(div_lt_one (by norm_num : (0:ℚ) < 24)).mpr h24]
  have hqn : 0 ≤ x / 24 := by positivity
  have ht : ratTrunc (x / 24) = 0 := by
    rw [ratTrunc]
    apply Int.tdiv_eq_zero_of_lt (Rat.num_nonneg.mpr hqn)
    have hnd : ((x / 24).num : ℚ) < (((x / 24).den : ℤ) : ℚ) := by
      have := Rat.mul_den_eq_num (x / 24)
      push_cast
      nlinarith
    exact_mod_cast hnd
  unfold pmod goMod
  rw [ht]
  push_cast
  rw [mul_zero, sub_zero, if_neg (not_lt.mpr h0)]

/-- C9 fails as stated: `RA.Format` does not hand the hour measure
through unchanged; for an RA whose hour value is 25, the magnitude
handed to the engine is `pmod 25 24 = 1`. -/
theorem claim9_counterexample : raFormatHrDeg 25 ≠ 25 := by
  decide

/-- C9 amended: `RA.Format` itself wraps the hour measure with
`unit.PMod(· , 24)` before handing it to the engine — the handed
magnitude always lies in `[0, 24)`, and an hour value already in
`[0, 24)` is handed through unchanged. -/
theorem claim9_ra_wrap (h : ℚ) :
    (0 ≤ raFormatHrDeg h ∧ raFormatHrDeg h < 24) ∧
    (0 ≤ h → h < 24 → raFormatHrDeg h = h) := by
  refine ⟨pmod24_bounds h, fun h0 h24 => pmod24_id h0 h24⟩

/-- Witness for the amended C9: the out-of-range hour 25 is wrapped to
1, and the in-range hour 5 passes through unchanged. -/
theorem claim9_witness :
    (0 ≤ raFormatHrDeg 25 ∧ raFormatHrDeg 25 < 24) ∧
    ((0:ℚ) ≤ 5 ∧ (5:ℚ) < 24 ∧ raFormatHrDeg 5 = 5) :=
  ⟨(claim9_ra_wrap 25).1, by decide, by decide, (claim9_ra_wrap 5).2 (by decide) (by decide)⟩

/-! ### Directive and value error claims (C3, C5) -/

lemma valErr_stars (st : St) (e : Err) :
    ∃ n, valErr st e = (List.replicate n '*', some e) := by
  unfold valErr
  cases formatBody st with
  | ok mock => exact ⟨_, rfl⟩
  | error _ => exact ⟨10, rfl⟩

/-- C5: a requested precision of 16 or more yields a directive error for
every value (including NaN and the infinities) and every verb: the
output is an inline diagnostic token (the precision diagnostic for a
recognized verb, the verb diagnostic otherwise) and the persisted error
is nil — never a value error. -/
theorem claim5_bad_precision (verb : Char) (v : FVal) (caller : Caller)
    (symOpt : Option Symbols) (width : Option Nat) (p : Nat)
    (plus space zero hash : Bool) (hp : 16 ≤ p) :
    (writeFormatted verb v caller symOpt width (some p) plus space zero hash).2 = none ∧
    ((writeFormatted verb v caller symOpt width (some p) plus space zero hash).1 =
        badPrecMsg p ∨
     (writeFormatted verb v caller symOpt width (some p) plus space zero hash).1 =
        badVerbMsg verb) := by
  unfold writeFormatted
  by_cases hv : verbValid verb = false
  · rw [if_pos hv]
    exact ⟨rfl, Or.inr rfl⟩
  · rw [if_neg hv]
    simp only [mkState, Option.getD_some]
    rw [if_pos (by omega)]
    exact ⟨rfl, Or.inl rfl⟩

/-- Witness for C5 at verb 's', value NaN, precision 16. -/
theorem claim5_witness :
    16 ≤ 16 ∧
    (writeFormatted 's' FVal.nan Caller.fsAngle none none (some 16)
      false false false false).2 = none ∧
    ((writeFormatted 's' FVal.nan Caller.fsAngle none none (some 16)
        false false false false).1 = badPrecMsg 16 ∨
     (writeFormatted 's' FVal.nan Caller.fsAngle none none (some 16)
        false false false false).1 = badVerbMsg 's') :=
  ⟨by decide, claim5_bad_precision 's' FVal.nan Caller.fsAngle none none 16
    false false false false (by decide)⟩

/-- C3 fails as stated: it promises a value error and asterisks
"regardless of the directive", but with the unrecognized verb 'q' a NaN
value yields no persisted error and a verb diagnostic, not asterisks. -/
theorem claim3_counterexample :
    (writeFormatted 'q' FVal.nan Caller.fsAngle none none none
      false false false false).2 = none ∧
    ((writeFormatted 'q' FVal.nan Caller.fsAngle none none none
      false false false false).1.all (· == '*')) = false := by
  decide

/-- C3 amended: for every directive with a recognized verb and
precision at most 15, formatting NaN, +Inf or -Inf yields the
respective persisted value error (ErrNaN, ErrPosInf, ErrNegInf) and an
all-asterisk output. -/
theorem claim3_nonfinite_value_error (verb : Char) (caller : Caller)
    (symOpt : Option Symbols) (width precOpt : Option Nat)
    (plus space zero hash : Bool)
    (hv : verbValid verb = true) (hp : precOpt.getD 0 ≤ 15) :
    (∃ n, writeFormatted verb FVal.nan caller symOpt width precOpt plus space zero hash =
      (List.replicate n '*', some Err.nan)) ∧
    (∃ n, writeFormatted verb FVal.posInf caller symOpt width precOpt plus space zero hash =
      (List.replicate n '*', some Err.posInf)) ∧
    (∃ n, writeFormatted verb FVal.negInf caller symOpt width precOpt plus space zero hash =
      (List.replicate n '*', some Err.negInf)) := by
  have hv2 : ¬ verbValid verb = false := by simp [hv]
  have hp2 : ¬ 15 < precOpt.getD 0 := by omega
  unfold writeFormatted
  simp only [mkState]
  refine ⟨?_, ?_, ?_⟩ <;>
    · rw [if_neg hv2, if_neg hp2]
      exact valErr_stars _ _

/-- Witness for the amended C3 at verb 's' with default directive. -/
theorem claim3_witness :
    verbValid 's' = true ∧ (none : Option Nat).getD 0 ≤ 15 ∧
    (∃ n, writeFormatted 's' FVal.nan Caller.fsAngle none none none
        false false false false = (List.replicate n '*', some Err.nan)) ∧
    (∃ n, writeFormatted 's' FVal.posInf Caller.fsAngle none none none
        false false false false = (List.replicate n '*', some Err.posInf)) ∧
    (∃ n, writeFormatted 's' FVal.negInf Caller.fsAngle none none none
        false false false false = (List.replicate n '*', some Err.negInf)) := by
  have h := claim3_nonfinite_value_error 's' Caller.fsAngle none none none
    false false false false (by decide) (by decide)
  exact ⟨by decide, by decide, h.1, h.2.1, h.2.2⟩

/-! ### Renderer claims (C7, C4) -/

lemma signPre_eq_of_no_width (st : St) (hw : st.width = none) (r : List Char) :
    signPre st r =
      (if st.hrDeg < 0 then ['-']
       else if st.flagPlus = true then ['+']
       else if st.flagSpace = true then [' ']
       else []) ++ r := by
  unfold signPre
  rw [hw]
  by_cases h1 : st.hrDeg < 0
  · simp [h1]
  · by_cases h2 : st.flagPlus = true
    · simp [h1, h2]
    · by_cases h3 : st.flagSpace = true
      · simp [h1, h2, h3]
      · simp [h1, h2, h3]

/-- C7: with no width specified, the first segment is elided (rendered
empty) exactly when its value is zero and the force-all-segments flag
'#' is absent; otherwise it is a bare decimal with its unit suffix.
The sign prefix is applied after elision: '-' if the value is negative,
else '+' under the '+' flag, else a single leading space under the ' '
flag (a fixed width, the other trigger of the space, being absent
here), else nothing. -/
theorem claim7_first_segment_elision_sign (st : St) (x : Nat) (hw : st.width = none) :
    firstSeg st x =
      Except.ok
        ((if st.hrDeg < 0 then ['-']
          else if st.flagPlus = true then ['+']
          else if st.flagSpace = true then [' ']
          else []) ++
         (if x = 0 ∧ st.flagHash = false then [] else natDigits x ++ st.units.HrDeg),
        if x = 0 ∧ st.flagHash = false then true else false) := by
  unfold firstSeg
  rw [hw]
  by_cases hx : 0 < x ∨ st.flagHash = true
  · have hne : ¬ (x = 0 ∧ st.flagHash = false) := by
      rcases hx with h | h
      · rintro ⟨rfl, -⟩; omega
      · rintro ⟨-, hc⟩; rw [h] at hc; cases hc
    simp only [if_pos hx, if_neg hne, signPre_eq_of_no_width st hw]
  · have heq : x = 0 ∧ st.flagHash = false := by
      push_neg at hx
      exact ⟨by omega, by simpa using hx.2⟩
    simp only [if_neg hx, if_pos heq, signPre_eq_of_no_width st hw, List.append_nil]

/-- Witness for C7: zero first segment without '#' elides to just the
reserved sign space. -/
theorem claim7_witness :
    stC7.width = none ∧
    firstSeg stC7 0 =
      Except.ok
        ((if stC7.hrDeg < 0 then ['-']
          else if stC7.flagPlus = true then ['+']
          else if stC7.flagSpace = true then [' ']
          else []) ++
         (if 0 = 0 ∧ stC7.flagHash = false then [] else natDigits 0 ++ stC7.units.HrDeg),
        if 0 = 0 ∧ stC7.flagHash = false then true else false) :=
  ⟨rfl, claim7_first_segment_elision_sign stC7 0 rfl⟩

lemma goFmtInt_length (plus space zero : Bool) (w : Nat) (i : Int) :
    (goFmtInt plus space zero w i).length =
      max w
        ((if i < 0 then 1 else if plus = true then 1 else if space = true then 1 else 0) +
          (natDigits i.natAbs).length) := by
  by_cases h1 : i < 0 <;> by_cases h2 : plus = true <;> by_cases h3 : space = true <;>
    by_cases h4 : zero = true <;>
      simp [goFmtInt, h1, h2, h3, h4, List.length_append] <;> omega

/-- C4: with a fixed width, a first segment whose digit count exceeds
the width yields the overflow error of the caller's convention —
ErrDegreeOverflow for the Angle caller, ErrHourOverflow for the others
— both in the multi-segment renderer (`firstSeg`) and in the
single-segment hr/deg renderer (`decimalHrDeg`, whose field also holds
the sign column and the fraction digits). -/
theorem claim4_width_overflow_kind (st : St) (wid : Nat) (x : Nat) :
    (st.width = some wid → wid < (natDigits x).length →
      firstSeg st x = Except.error
        (if st.caller = Caller.fsAngle then Err.degreeOverflow else Err.hourOverflow)) ∧
    (st.width = some wid → 0 ≤ sig (goAbs st.hrDeg) st.prec →
      st.prec + wid < (natDigits (sig (goAbs st.hrDeg) st.prec).toNat).length →
      decimalHrDeg st = Except.error
        (if st.caller = Caller.fsAngle then Err.degreeOverflow else Err.hourOverflow)) := by
  constructor
  · intro hw hlen
    unfold firstSeg
    rw [hw]
    simp only []
    have hlen2 : wid < (goFmtInt false false st.flagZero wid (x : Int)).length := by
      rw [goFmtInt_length]
      have : ¬ ((x : Int) < 0) := by omega
      rw [if_neg this]
      simp only [Int.natAbs_ofNat]
      omega
    rw [if_pos hlen2]
  · intro hw hsig hlen
    unfold decimalHrDeg
    rw [if_neg (not_lt.mpr hsig), hw]
    simp only []
    set i0 := sig (goAbs st.hrDeg) st.prec with hi0
    have hlen2 : st.prec + wid + 1 <
        (goFmtInt st.flagPlus (!st.flagPlus) st.flagZero (st.prec + wid + 1)
          (if st.hrDeg < 0 then -i0 else i0)).length := by
      rw [goFmtInt_length]
      have habs : (if st.hrDeg < 0 then -i0 else i0).natAbs = i0.toNat := by
        by_cases hneg : st.hrDeg < 0 <;> simp [hneg] <;> omega
      rw [habs]
      have hsign :
          (if (if st.hrDeg < 0 then -i0 else i0) < 0 then 1
           else if st.flagPlus = true then 1
           else if (!st.flagPlus) = true then 1 else 0) = 1 := by
        by_cases ha : (if st.hrDeg < 0 then -i0 else i0) < 0
        · rw [if_pos ha]
        · rw [if_neg ha]
          by_cases hb : st.flagPlus = true
          · rw [if_pos hb]
          · have hb2 : st.flagPlus = false := by
              revert hb; cases st.flagPlus <;> simp
            rw [if_neg hb, if_pos (by rw [hb2]; rfl)]
      rw [hsign]
      omega
    rw [if_pos hlen2]

/-- Witness for C4: 135 overflows width 2 as degrees and width 1 as
hours, with the matching error kinds. -/
theorem claim4_witness :
    stC4a.width = some 2 ∧ 2 < (natDigits 135).length ∧
    firstSeg stC4a 135 = Except.error
      (if stC4a.caller = Caller.fsAngle then Err.degreeOverflow else Err.hourOverflow) ∧
    stC4b.width = some 1 ∧ 0 ≤ sig (goAbs stC4b.hrDeg) stC4b.prec ∧
    stC4b.prec + 1 < (natDigits (sig (goAbs stC4b.hrDeg) stC4b.prec).toNat).length ∧
    decimalHrDeg stC4b = Except.error
      (if stC4b.caller = Caller.fsAngle then Err.degreeOverflow else Err.hourOverflow) :=
  ⟨rfl, by decide, (claim4_width_overflow_kind stC4a 2 135).1 rfl (by decide),
    rfl, by decide, by decide,
    (claim4_width_overflow_kind stC4b 1 0).2 rfl (by decide) (by decide)⟩

/-! ### The seconds decomposition (C6) -/

/-- C6: when the scaled integer is representable, the seconds-convention
decomposer splits it into exactly `sec = i mod (60·10^p)`,
`min = (i div (60·10^p)) mod 60` and `firstSeg = (i div (60·10^p)) div 60`,
rendered most-significant first (first segment, then minutes, then
seconds), and these segments reconstruct `i` uniquely. -/
theorem claim6_seconds_decomposition (st : St)
    (h : 0 ≤ sig (goAbs st.hrDeg * 3600) st.prec) :
    decimalSec st =
      Except.map
        (fun pr => secTail st pr.1 pr.2
          ((sig (goAbs st.hrDeg * 3600) st.prec).toNat / (60 * 10 ^ st.prec) % 60)
          ((sig (goAbs st.hrDeg * 3600) st.prec).toNat % (60 * 10 ^ st.prec)))
        (firstSeg st ((sig (goAbs st.hrDeg * 3600) st.prec).toNat / (60 * 10 ^ st.prec) / 60)) ∧
    ((sig (goAbs st.hrDeg * 3600) st.prec).toNat / (60 * 10 ^ st.prec) / 60 * 60 +
          (sig (goAbs st.hrDeg * 3600) st.prec).toNat / (60 * 10 ^ st.prec) % 60) *
        (60 * 10 ^ st.prec) +
        (sig (goAbs st.hrDeg * 3600) st.prec).toNat % (60 * 10 ^ st.prec) =
      (sig (goAbs st.hrDeg * 3600) st.prec).toNat ∧
    (sig (goAbs st.hrDeg * 3600) st.prec).toNat / (60 * 10 ^ st.prec) % 60 < 60 ∧
    (sig (goAbs st.hrDeg * 3600) st.prec).toNat % (60 * 10 ^ st.prec) < 60 * 10 ^ st.prec := by
  set n := (sig (goAbs st.hrDeg * 3600) st.prec).toNat with hn
  set p60 := 60 * 10 ^ st.prec with hp60
  have hp60pos : 0 < p60 := by positivity
  refine ⟨?_, ?_, Nat.mod_lt _ (by norm_num), Nat.mod_lt _ hp60pos⟩
  · unfold decimalSec
    rw [if_neg (not_lt.mpr h)]
    simp only []
    cases firstSeg st (n / p60 / 60) with
    | error e => rfl
    | ok pr => cases pr; rfl
  · calc (n / p60 / 60 * 60 + n / p60 % 60) * p60 + n % p60
        = (n / p60) * p60 + n % p60 := by
          rw [show n / p60 / 60 * 60 + n / p60 % 60 = n / p60 from by omega]
      _ = n := by rw [mul_comm]; exact Nat.div_add_mod n p60

/-- Witness for C6: 0°1′2″ decomposes to segments 0, 1, 2 and renders
(with the zero first segment elided) as `1′2″`. -/
theorem claim6_witness :
    0 ≤ sig (goAbs stC6.hrDeg * 3600) stC6.prec ∧
    decimalSec stC6 = Except.ok ['1', '′', '2', '″'] := by
  refine ⟨by decide, ?_⟩
  have h := (claim6_seconds_decomposition stC6 (by decide)).1
  rw [h]
  decide

/-! ### The asterisk sentinel width (C8) -/

/-- C8: on a value error over a finite value, the formatter writes an
all-asterisk string whose length is the rune count of a mock rendering
of the value zero under the same directive, minus one if the mock
contains the combining mark, or the fixed fallback 10 if the mock
render itself fails; the error is persisted. -/
theorem claim8_sentinel_width (verb : Char) (q : ℚ) (caller : Caller)
    (symOpt : Option Symbols) (width precOpt : Option Nat)
    (plus space zero hash : Bool) (e : Err)
    (hv : verbValid verb = true) (hp : precOpt.getD 0 ≤ 15)
    (herr : formatBody
      { mkState verb caller symOpt width precOpt plus space zero hash with hrDeg := q } =
      Except.error e) :
    writeFormatted verb (FVal.finite q) caller symOpt width precOpt plus space zero hash =
      (List.replicate
        (match formatBody (mkState verb caller symOpt width precOpt plus space zero hash) with
         | Except.ok mock =>
           mock.length - (if mock.contains (symOpt.getD Default).DecCombine then 1 else 0)
         | Except.error _ => 10) '*',
       some e) := by
  have hv2 : ¬ verbValid verb = false := by simp [hv]
  have hp2 : ¬ 15 < precOpt.getD 0 := by omega
  unfold writeFormatted
  rw [if_neg hv2]
  simp only [mkState] at herr ⊢
  rw [if_neg hp2, herr]
  unfold valErr
  cases hm : formatBody (mkState verb caller symOpt width precOpt plus space zero hash) with
  | ok mock =>
    simp only [mkState] at hm
    rw [hm]
  | error e2 =>
    simp only [mkState] at hm
    rw [hm]

/-- Witness for C8: formatting 5 degrees at width 0 overflows; the mock
render of zero overflows too, so the fallback sentinel of 10 asterisks
is produced, with the degree overflow error persisted. -/
theorem claim8_witness :
    verbValid 's' = true ∧ (none : Option Nat).getD 0 ≤ 15 ∧
    formatBody { mkState 's' Caller.fsAngle none (some 0) none false false false false with
      hrDeg := 5 } = Except.error Err.degreeOverflow ∧
    writeFormatted 's' (FVal.finite 5) Caller.fsAngle none (some 0) none
      false false false false = (List.replicate 10 '*', some Err.degreeOverflow) := by
  refine ⟨by decide, by decide, by decide, ?_⟩
  have h := claim8_sentinel_width 's' 5 Caller.fsAngle none (some 0) none
    false false false false Err.degreeOverflow (by decide) (by decide) (by decide)
  rw [h]
  decide

/-! ### The significant digit bound (C1) -/

lemma mkState_prec (verb : Char) (caller : Caller) (symOpt : Option Symbols)
    (width precOpt : Option Nat) (plus space zero hash : Bool) :
    (mkState verb caller symOpt width precOpt plus space zero hash).prec =
      precOpt.getD 0 := rfl

lemma mkState_verb (verb : Char) (caller : Caller) (symOpt : Option Symbols)
    (width precOpt : Option Nat) (plus space zero hash : Bool) :
    (mkState verb caller symOpt width precOpt plus space zero hash).verb = verb := rfl

lemma ratTrunc_eq_floor {q : ℚ} (h : 0 ≤ q) : ratTrunc q = ⌊q⌋ := by
  rw [ratTrunc, Rat.floor_def]
  exact Int.tdiv_eq_ediv (Rat.num_nonneg.mpr h) (by positivity)

lemma goAbs_nonneg (q : ℚ) : 0 ≤ goAbs q := by
  unfold goAbs
  split
  · linarith
  · linarith

lemma sig_spec (x : ℚ) (p : Nat) (hx : 0 ≤ x) :
    (x * 10 ^ p + 1 / 2 ≤ 2 ^ 52 →
      sig x p = ⌊x * 10 ^ p + 1 / 2⌋ ∧ 0 ≤ sig x p) ∧
    (¬ x * 10 ^ p + 1 / 2 ≤ 2 ^ 52 → sig x p = -1) := by
  have hxs : (0 : ℚ) ≤ x * 10 ^ p + 1 / 2 := by positivity
  constructor
  · intro hle
    unfold sig
    rw [if_neg (not_not_intro hle)]
    refine ⟨ratTrunc_eq_floor hxs, ?_⟩
    rw [ratTrunc]
    exact Int.tdiv_nonneg (Rat.num_nonneg.mpr hxs) (by positivity)
  · intro hgt
    unfold sig
    rw [if_pos hgt]

lemma firstSeg_error_overflow {st : St} {x : Nat} {e : Err}
    (h : firstSeg st x = Except.error e) :
    e = Err.degreeOverflow ∨ e = Err.hourOverflow := by
  unfold firstSeg at h
  cases hw : st.width with
  | some wid =>
    rw [hw] at h
    simp only [] at h
    by_cases hc : wid < (goFmtInt false false st.flagZero wid (x : Int)).length
    · rw [if_pos hc] at h
      injection h with h2
      by_cases hca : st.caller = Caller.fsAngle
      · rw [if_pos hca] at h2
        exact Or.inl h2.symm
      · rw [if_neg hca] at h2
        exact Or.inr h2.symm
    · rw [if_neg hc] at h
      exact Except.noConfusion h
  | none =>
    rw [hw] at h
    simp only [] at h
    by_cases hx0 : 0 < x ∨ st.flagHash = true
    · rw [if_pos hx0] at h
      exact Except.noConfusion h
    · rw [if_neg hx0] at h
      exact Except.noConfusion h

lemma decimalHrDeg_error_not_loss {st : St} {e : Err}
    (hs : 0 ≤ sig (goAbs st.hrDeg) st.prec)
    (h : decimalHrDeg st = Except.error e) : e ≠ Err.lossOfPrecision := by
  unfold decimalHrDeg at h
  rw [if_neg (not_lt.mpr hs)] at h
  simp only [] at h
  cases hw : st.width with
  | none =>
    rw [hw] at h
    exact Except.noConfusion h
  | some wid =>
    rw [hw] at h
    simp only [] at h
    by_cases hc : st.prec + wid + 1 <
        (goFmtInt st.flagPlus (!st.flagPlus) st.flagZero (st.prec + wid + 1)
          (if st.hrDeg < 0 then -(sig (goAbs st.hrDeg) st.prec)
           else sig (goAbs st.hrDeg) st.prec)).length
    · rw [if_pos hc] at h
      injection h with h2
      by_cases hca : st.caller = Caller.fsAngle
      · rw [if_pos hca] at h2
        rw [← h2]
        intro hcon
        exact Err.noConfusion hcon
      · rw [if_neg hca] at h2
        rw [← h2]
        intro hcon
        exact Err.noConfusion hcon
    · rw [if_neg hc] at h
      exact Except.noConfusion h

lemma decimalMin_error_not_loss {st : St} {e : Err}
    (hs : 0 ≤ sig (goAbs st.hrDeg * 60) st.prec)
    (h : decimalMin st = Except.error e) : e ≠ Err.lossOfPrecision := by
  unfold decimalMin at h
  rw [if_neg (not_lt.mpr hs)] at h
  simp only [] at h
  cases hfs : firstSeg st
      ((sig (goAbs st.hrDeg * 60) st.prec).toNat / (60 * 10 ^ st.prec)) with
  | error e2 =>
    rw [hfs] at h
    injection h with h2
    subst h2
    rcases firstSeg_error_overflow hfs with h3 | h3 <;> subst h3 <;>
      (intro hcon; exact Err.noConfusion hcon)
  | ok pr =>
    rw [hfs] at h
    cases pr
    exact Except.noConfusion h

lemma decimalSec_error_not_loss {st : St} {e : Err}
    (hs : 0 ≤ sig (goAbs st.hrDeg * 3600) st.prec)
    (h : decimalSec st = Except.error e) : e ≠ Err.lossOfPrecision := by
  unfold decimalSec at h
  rw [if_neg (not_lt.mpr hs)] at h
  simp only [] at h
  cases hfs : firstSeg st
      ((sig (goAbs st.hrDeg * 3600) st.prec).toNat / (60 * 10 ^ st.prec) / 60) with
  | error e2 =>
    rw [hfs] at h
    injection h with h2
    subst h2
    rcases firstSeg_error_overflow hfs with h3 | h3 <;> subst h3 <;>
      (intro hcon; exact Err.noConfusion hcon)
  | ok pr =>
    rw [hfs] at h
    cases pr
    exact Except.noConfusion h

lemma formatBody_error_not_loss {st : St} {e : Err}
    (hle : goAbs st.hrDeg * verbFactor st.verb * 10 ^ st.prec + 1 / 2 ≤ 2 ^ 52)
    (h : formatBody st = Except.error e) : e ≠ Err.lossOfPrecision := by
  unfold formatBody at h
  unfold verbFactor at hle
  by_cases h1 : st.verb = 'm' ∨ st.verb = 'n' ∨ st.verb = 'o'
  · rw [if_pos h1] at h hle
    have hs : 0 ≤ sig (goAbs st.hrDeg * 60) st.prec :=
      ((sig_spec _ _ (mul_nonneg (goAbs_nonneg _) (by norm_num))).1 hle).2
    exact decimalMin_error_not_loss hs h
  · rw [if_neg h1] at h hle
    by_cases h2 : st.verb = 'h' ∨ st.verb = 'i' ∨ st.verb = 'j'
    · rw [if_pos h2] at h hle
      rw [mul_one] at hle
      have hs : 0 ≤ sig (goAbs st.hrDeg) st.prec :=
        ((sig_spec _ _ (goAbs_nonneg _)).1 hle).2
      exact decimalHrDeg_error_not_loss hs h
    · rw [if_neg h2] at h hle
      have hs : 0 ≤ sig (goAbs st.hrDeg * 3600) st.prec :=
        ((sig_spec _ _ (mul_nonneg (goAbs_nonneg _) (by norm_num))).1 hle).2
      exact decimalSec_error_not_loss hs h

/-- C1: for a non-negative magnitude and precision at most 15, `sig`
computes `s = x·10^p + 1/2` exactly; when `s` exceeds 2^52 it returns
the loss-of-precision sentinel -1 and otherwise `⌊s⌋ ≥ 0`.
Consequently, formatting any finite value whose scaled magnitude
(value times the convention factor times 10^p, plus one half) stays at
or below 2^52 never persists ErrLossOfPrecision. -/
theorem claim1_sig_no_loss :
    (∀ (x : ℚ) (p : Nat), 0 ≤ x → p ≤ 15 →
      (x * 10 ^ p + 1 / 2 ≤ 2 ^ 52 →
        sig x p = ⌊x * 10 ^ p + 1 / 2⌋ ∧ 0 ≤ sig x p) ∧
      (¬ x * 10 ^ p + 1 / 2 ≤ 2 ^ 52 → sig x p = -1)) ∧
    (∀ (verb : Char) (q : ℚ) (caller : Caller) (symOpt : Option Symbols)
        (width precOpt : Option Nat) (plus space zero hash : Bool),
      verbValid verb = true → precOpt.getD 0 ≤ 15 →
      goAbs q * verbFactor verb * 10 ^ precOpt.getD 0 + 1 / 2 ≤ 2 ^ 52 →
      (writeFormatted verb (FVal.finite q) caller symOpt width precOpt
        plus space zero hash).2 ≠ some Err.lossOfPrecision) := by
  constructor
  · intro x p hx _
    exact sig_spec x p hx
  · intro verb q caller symOpt width precOpt plus space zero hash hv hp hle
    have hv2 : ¬ verbValid verb = false := by simp [hv]
    have hp2 : ¬ 15 < precOpt.getD 0 := by omega
    unfold writeFormatted
    rw [if_neg hv2]
    simp only [mkState_prec]
    rw [if_neg hp2]
    split
    · simp
    · next e hfb =>
      have hne : e ≠ Err.lossOfPrecision := by
        refine @formatBody_error_not_loss
          { mkState verb caller symOpt width precOpt plus space zero hash with
            hrDeg := q } e ?_ hfb
        simpa only [mkState_verb, mkState_prec] using hle
      obtain ⟨n, hn⟩ := valErr_stars (mkState verb caller symOpt width precOpt
        plus space zero hash) e
      rw [hn]
      simp [hne]

/-- Witness for C1: `sig (3/2) 1 = ⌊15.5⌋ = 15` is in range, and
formatting 1 degree at precision 0 does not lose precision. -/
theorem claim1_witness :
    ((0 : ℚ) ≤ 3 / 2 ∧ (1 : Nat) ≤ 15 ∧
      ((3 / 2 : ℚ) * 10 ^ 1 + 1 / 2 ≤ 2 ^ 52) ∧
      sig (3 / 2) 1 = ⌊(3 / 2 : ℚ) * 10 ^ 1 + 1 / 2⌋ ∧ 0 ≤ sig (3 / 2) 1) ∧
    (verbValid 's' = true ∧ (none : Option Nat).getD 0 ≤ 15 ∧
      goAbs 1 * verbFactor 's' * 10 ^ (none : Option Nat).getD 0 + 1 / 2 ≤ 2 ^ 52 ∧
      (writeFormatted 's' (FVal.finite 1) Caller.fsAngle none none none
        false false false false).2 ≠ some Err.lossOfPrecision) := by
  constructor
  · have h := (claim1_sig_no_loss.1 (3 / 2) 1 (by decide) (by decide)).1 (by decide)
    exact ⟨by decide, by decide, by decide, h.1, h.2⟩
  · have h := claim1_sig_no_loss.2 's' 1 Caller.fsAngle none none none
      false false false false (by decide) (by decide) (by decide)
    exact ⟨by decide, by decide, by decide, h⟩

end Sexa
